import Mathlib

/-!
# Verification of the VPN node stability-scoring tool

Shallow embedding of `src/main.py` (ingestion, scoring, ranking) and proofs
of the specified properties.

Modelling conventions:
* Python floats are idealised as exact rationals (`ℚ`) for parsed data and
  exact reals (`ℝ`) for derived statistics (`statistics.stdev` needs `Real.sqrt`).
* `statistics.mean` / `statistics.stdev` are the arithmetic mean and the
  Bessel-corrected (n−1) sample standard deviation, which is what the Python
  `statistics` module computes.
* A Python `ZeroDivisionError` escaping a function is modelled by the
  function returning `none`.
* The error-marker sentinel tuple `('ERROR', 'ERROR')` is modelled as a
  tagged variant `Sample.error`; a measurement tuple `(ping, speed)` as
  `Sample.valid ping speed`.
-/

namespace VPN

/-- A sample stored in the corpus: a valid `(ping, speed)` pair, or the
error-marker sentinel `('ERROR', 'ERROR')` of `main.py` line 34. -/
inductive Sample where
  | valid (ping speed : ℚ) : Sample
  | error : Sample
deriving DecidableEq

/-! ## Field parsing (`parse_value`, `main.py` lines 7–13)

Python's `float(value)` is modelled for decimal literals, optionally signed,
with an optional fractional part and an optional decimal exponent
(`"12"`, `"-3.5"`, `"+.25"`, `"1e-2"`, …).  Strings outside this grammar
(`"inf"`, `"nan"`, embedded underscores, surrounding whitespace) are not
modelled; every claim below depends only on the outcome of parsing, never on
those exotic inputs. -/

/-- Numeric value of a digit string (most significant digit first). -/
def digitsToNat (cs : List Char) : ℕ :=
  cs.foldl (fun a c => 10 * a + (c.toNat - 48)) 0

/-- Exponent part of a float literal: optional sign, then a nonempty digit
string. -/
def parseExp (cs : List Char) : Option ℤ :=
  match cs with
  | '+' :: ds => if ds ≠ [] ∧ ds.all Char.isDigit then some (digitsToNat ds) else none
  | '-' :: ds => if ds ≠ [] ∧ ds.all Char.isDigit then some (-(digitsToNat ds : ℤ)) else none
  | ds => if ds ≠ [] ∧ ds.all Char.isDigit then some (digitsToNat ds) else none

/-- Unsigned float literal: `digits [. digits] [(e|E) exp]`, with at least one
digit in the mantissa. -/
def parseUnsigned (cs : List Char) : Option ℚ :=
  let intPart := cs.takeWhile Char.isDigit
  let rest := cs.dropWhile Char.isDigit
  match rest with
  | [] => if intPart.isEmpty then none else some (digitsToNat intPart)
  | c :: rest2 =>
    if c = '.' then
      let fracPart := rest2.takeWhile Char.isDigit
      let rest3 := rest2.dropWhile Char.isDigit
      if intPart.isEmpty && fracPart.isEmpty then none
      else
        let mant : ℚ := (digitsToNat intPart : ℚ) +
          (digitsToNat fracPart : ℚ) / 10 ^ fracPart.length
        match rest3 with
        | [] => some mant
        | e :: rest4 =>
          if e = 'e' ∨ e = 'E' then (parseExp rest4).map fun ex => mant * (10 : ℚ) ^ ex
          else none
    else if c = 'e' ∨ c = 'E' then
      if intPart.isEmpty then none
      else (parseExp rest2).map fun ex => (digitsToNat intPart : ℚ) * (10 : ℚ) ^ ex
    else none

/-- Model of Python `float(value)` on decimal literals: optional sign, then an
unsigned literal. -/
def pyFloat (s : String) : Option ℚ :=
  match s.data with
  | [] => none
  | c :: cs =>
    if c = '-' then (parseUnsigned cs).map fun q => -q
    else if c = '+' then parseUnsigned cs
    else parseUnsigned (c :: cs)

/-- `value.upper() == 'ERROR'` (`main.py` line 8); `str.upper` mapped
character-wise (identical to Python for these ASCII comparisons). -/
def isErrorWord (v : String) : Bool :=
  v.data.map Char.toUpper == "ERROR".data

/-- `parse_value` (`main.py` lines 7–13): `None` for the empty string or any
casing of `"ERROR"`, otherwise `float(value)`, with a parse failure
(`ValueError`) also giving `None`. -/
def parse_value (v : String) : Option ℚ :=
  if v = "" ∨ isErrorWord v then none else pyFloat v

/-! ## Ingestion (`read_csv_files`, `main.py` lines 15–35) -/

/-- Per-server dataset: file name → ordered samples, in insertion order. -/
abbrev ServerData := List (String × List Sample)

/-- The corpus: server name → dataset, in insertion order. -/
abbrev Corpus := List (String × ServerData)

/-- `defaultdict`-style update of an insertion-ordered association list:
an existing key is updated in place, a missing key is appended at the end
with the default value, exactly Python's `dict` access semantics. -/
def updateAssoc {α : Type} (l : List (String × α)) (k : String) (d : α) (f : α → α) :
    List (String × α) :=
  match l with
  | [] => [(k, f d)]
  | (k', v) :: rest =>
    if k = k' then (k', f v) :: rest else (k', v) :: updateAssoc rest k d f

/-- `data[server_name][filename].append(sample)` on the nested defaultdict
(`main.py` lines 16, 32, 34). -/
def addSample (data : Corpus) (server fname : String) (s : Sample) : Corpus :=
  updateAssoc data server [] fun sd => updateAssoc sd fname [] fun ms => ms ++ [s]

/-- Processing of one data row (`main.py` lines 27–34): rows of exactly 3
fields are parsed; both fields numbers → valid sample, both fields
unparseable → error marker, otherwise no record. -/
def processRow (row : List String) : Option (String × Sample) :=
  match row with
  | [server_name, ping, speed] =>
    match parse_value ping, parse_value speed with
    | some p, some s => some (server_name, .valid p s)
    | none, none => some (server_name, .error)
    | _, _ => none
  | _ => none

/-- Fold one data row into the corpus. -/
def ingestRow (fname : String) (data : Corpus) (row : List String) : Corpus :=
  match processRow row with
  | some (server, s) => addSample data server fname s
  | none => data

/-- A CSV file: its name and its rows (header row included), each row a list
of fields as produced by `csv.reader`. -/
structure CsvFile where
  name : String
  rows : List (List String)

/-- `filename.endswith('.csv')` (`main.py` line 19), stated on the character
list of the name. -/
def hasCsvSuffix (s : String) : Bool :=
  ".csv".data.isSuffixOf s.data

/-- `read_csv_files` (`main.py` lines 15–35): files are taken in sorted name
order, only `.csv` names qualify, the header row of each file is skipped and
the remaining rows are folded into the corpus.  Returns the corpus and the
processed file names. -/
def read_csv_files (dir : List CsvFile) : Corpus × List String :=
  let files := (dir.mergeSort fun a b => decide (a.name ≤ b.name)).filter
    fun f => hasCsvSuffix f.name
  (files.foldl (fun data f => (f.rows.drop 1).foldl (ingestRow f.name) data) [],
   files.map CsvFile.name)

/-! ## Statistics (`statistics.mean` / `statistics.stdev`) -/

/-- Arithmetic mean (junk value `0` on `[]`; the code only calls it on lists
of length ≥ 2). -/
def mean (xs : List ℚ) : ℚ := xs.sum / xs.length

/-- Bessel-corrected sample variance (n−1 denominator). -/
def sampleVariance (xs : List ℚ) : ℚ :=
  (xs.map fun x => (x - mean xs) ^ 2).sum / ((xs.length : ℚ) - 1)

/-- Sample standard deviation, `statistics.stdev`. -/
noncomputable def stdev (xs : List ℚ) : ℝ :=
  Real.sqrt (sampleVariance xs)

/-! ## Scoring (`calculate_scores`, `main.py` lines 37–52) -/

/-- `[m for m in measurements if m != ('ERROR', 'ERROR')]` with the pairs
extracted (`main.py` lines 38, 42). -/
def validMeasurements (ms : List Sample) : List (ℚ × ℚ) :=
  ms.filterMap fun m => match m with | .valid p s => some (p, s) | .error => none

/-- `1 / (statistics.stdev(pings) + 1)` (`main.py` line 45). -/
noncomputable def ping_stability (pings : List ℚ) : ℝ :=
  1 / (stdev pings + 1)

/-- `1 / (statistics.stdev(speeds) / statistics.mean(speeds) + 1)`
(`main.py` line 46), with Python's two `ZeroDivisionError` paths modelled as
`none`: the inner division faults when `mean speeds = 0`, the outer one when
`stdev speeds / mean speeds = -1`.  Since `stdev ss = √(sampleVariance ss)`
and `sampleVariance ss ≥ 0`, the outer denominator vanishes exactly when
`mean ss < 0 ∧ sampleVariance ss = (mean ss)^2`, a condition decidable over
`ℚ`; `speed_stability_fault_iff` below certifies this reformulation. -/
noncomputable def speed_stability (ss : List ℚ) : Option ℝ :=
  if mean ss = 0 then none
  else if mean ss < 0 ∧ sampleVariance ss = mean ss ^ 2 then none
  else some (1 / (stdev ss / (mean ss : ℝ) + 1))

/-- `calculate_scores` (`main.py` lines 37–52).  Returns
`(stability_score, avg_speed, avg_ping)`; fewer than 2 valid measurements
give the degenerate `(0, 0, +∞)`; an uncaught `ZeroDivisionError` is `none`.
`avg_ping` lives in `EReal` to accommodate `float('inf')`. -/
noncomputable def calculate_scores (measurements : List Sample) :
    Option (ℝ × ℝ × EReal) :=
  let valid := validMeasurements measurements
  if valid.length < 2 then
    some (0, 0, (⊤ : EReal))
  else
    let pings := valid.map Prod.fst
    let speeds := valid.map Prod.snd
    match speed_stability speeds with
    | none => none
    | some sstab =>
      some ((ping_stability pings + sstab) / 2,
        ((mean speeds : ℚ) : ℝ),
        (((mean pings : ℚ) : ℝ) : EReal))

/-! ## Ranking (`rank_nodes`, `main.py` lines 54–70) -/

/-- One entry of the rankings list: the tuple
`(server_name, weighted_score, stability_score, avg_speed, avg_ping)`
appended at `main.py` line 68. -/
structure Ranking where
  server : String
  weighted : EReal
  stability : ℝ
  avgSpeed : ℝ
  avgPing : EReal

/-- The body of the `rank_nodes` loop for one server (`main.py` lines 56–68):
flatten the per-file measurements, score them, normalise, and weight
`4 : 3 : 1` over the weight sum `8`. -/
noncomputable def scoreServer (server : String) (file_measurements : ServerData) :
    Option Ranking :=
  let all_measurements := (file_measurements.map Prod.snd).flatten
  match calculate_scores all_measurements with
  | none => none
  | some (stability_score, avg_speed, avg_ping) =>
    let normalized_stability : ℝ := stability_score / 1
    let normalized_speed : ℝ := min (avg_speed / 100) 1
    let normalized_ping : EReal := max (1 - avg_ping / 1000) 0
    let weighted_score : EReal :=
      (4 * (normalized_stability : EReal) + 3 * (normalized_speed : EReal) +
        1 * normalized_ping) / 8
    some ⟨server, weighted_score, stability_score, avg_speed, avg_ping⟩

/-- The `for server_name, file_measurements in data.items()` loop of
`rank_nodes`, in corpus insertion order; a `ZeroDivisionError` raised for any
server aborts the whole computation (`none`). -/
noncomputable def collectRankings : Corpus → Option (List Ranking)
  | [] => some []
  | e :: rest =>
    match scoreServer e.1 e.2 with
    | none => none
    | some r =>
      match collectRankings rest with
      | none => none
      | some rs => some (r :: rs)

open Classical in
/-- Comparison used to model `sorted(rankings, key=lambda x: x[1],
reverse=True)`: `a` may precede `b` iff `b`'s weighted score is ≤ `a`'s.
Python's `sorted` is a stable mergesort, so `List.mergeSort` with this
comparison is its exact model. -/
noncomputable def rankLE (a b : Ranking) : Bool :=
  decide (b.weighted ≤ a.weighted)

/-- `rank_nodes` (`main.py` lines 54–70). -/
noncomputable def rank_nodes (data : Corpus) : Option (List Ranking) :=
  match collectRankings data with
  | none => none
  | some rankings => some (rankings.mergeSort rankLE)

/-! ## Spec-side definitions

These re-state, in the spec's words, the formulas the claims assert; the
refinement theorems below compare them with the source-side definitions. -/

/-- The stability score as worded by the spec: with `σ_p` the Bessel-corrected
ping standard deviation, `σ_s` the speed one and `μ_s` the speed mean,
`ping_stability = 1/(σ_p+1)`, `speed_stability = 1/(σ_s/μ_s + 1)`,
`stability = (ping_stability + speed_stability)/2`. -/
noncomputable def specStability (pairs : List (ℚ × ℚ)) : ℝ :=
  (1 / (stdev (pairs.map Prod.fst) + 1) +
    1 / (stdev (pairs.map Prod.snd) / ((mean (pairs.map Prod.snd) : ℚ) : ℝ) + 1)) / 2

/-- The weighted score as worded by the spec:
`(4·stability + 3·min(avg_speed/100, 1) + 1·max(1 − avg_ping/1000, 0)) / 8`. -/
noncomputable def specWeighted (stability avgSpeed avgPing : ℝ) : ℝ :=
  (4 * stability + 3 * min (avgSpeed / 100) 1 + 1 * max (1 - avgPing / 1000) 0) / 8

/-- Membership of a sample somewhere in the corpus. -/
def sampleIn (c : Corpus) (x : Sample) : Prop :=
  ∃ e ∈ c, ∃ fe ∈ e.2, x ∈ fe.2

/-! ## Statistics lemmas -/

lemma mean_eq_of_const {xs : List ℚ} {c : ℚ} (h : ∀ x ∈ xs, x = c) (hne : xs ≠ []) :
    mean xs = c := by
  have hsum : xs.sum = xs.length • c := List.sum_eq_card_nsmul xs c h
  have hlen : (xs.length : ℚ) ≠ 0 := by
    exact_mod_cast Nat.pos_iff_ne_zero.mp (List.length_pos.mpr hne)
  rw [mean, hsum, nsmul_eq_mul]
  field_simp

lemma mean_nonneg {xs : List ℚ} (h : ∀ x ∈ xs, 0 ≤ x) : 0 ≤ mean xs :=
  div_nonneg (List.sum_nonneg h) (Nat.cast_nonneg _)

lemma sampleVariance_nonneg (xs : List ℚ) : 0 ≤ sampleVariance xs := by
  rcases eq_or_ne xs [] with rfl | hne
  · simp [sampleVariance]
  · refine div_nonneg (List.sum_nonneg ?_) ?_
    · intro x hx
      obtain ⟨y, -, rfl⟩ := List.mem_map.mp hx
      positivity
    · have : 1 ≤ (xs.length : ℚ) := by
        exact_mod_cast Nat.one_le_iff_ne_zero.mpr (List.length_eq_zero.not.mpr hne)
      linarith

lemma sampleVariance_eq_zero_of_const {xs : List ℚ} {c : ℚ} (h : ∀ x ∈ xs, x = c) :
    sampleVariance xs = 0 := by
  rcases eq_or_ne xs [] with rfl | hne
  · simp [sampleVariance]
  · have hmean := mean_eq_of_const h hne
    have : (xs.map fun x => (x - mean xs) ^ 2).sum = 0 := by
      apply List.sum_eq_zero
      intro x hx
      obtain ⟨y, hy, rfl⟩ := List.mem_map.mp hx
      rw [h y hy, hmean, sub_self, zero_pow two_ne_zero]
    rw [sampleVariance, this, zero_div]

lemma stdev_nonneg (xs : List ℚ) : 0 ≤ stdev xs :=
  Real.sqrt_nonneg _

lemma stdev_eq_zero_of_const {xs : List ℚ} {c : ℚ} (h : ∀ x ∈ xs, x = c) :
    stdev xs = 0 := by
  rw [stdev, sampleVariance_eq_zero_of_const h]
  simp

/-! ## Stability-term lemmas -/

lemma ping_stability_pos (ps : List ℚ) : 0 < ping_stability ps := by
  have := stdev_nonneg ps
  rw [ping_stability]
  positivity

lemma ping_stability_le_one (ps : List ℚ) : ping_stability ps ≤ 1 := by
  have h := stdev_nonneg ps
  rw [ping_stability]
  rw [div_le_one (by linarith)]
  linarith

lemma ping_stability_eq_one_of_const {ps : List ℚ} {c : ℚ} (h : ∀ x ∈ ps, x = c) :
    ping_stability ps = 1 := by
  rw [ping_stability, stdev_eq_zero_of_const h, zero_add, div_one]

/-- Certification that the decidable guard used in `speed_stability` is
exactly the vanishing of the Python denominator
`statistics.stdev(speeds) / statistics.mean(speeds) + 1`. -/
lemma speed_stability_fault_iff {ss : List ℚ} (hm : mean ss ≠ 0) :
    (mean ss < 0 ∧ sampleVariance ss = mean ss ^ 2) ↔
      stdev ss / ((mean ss : ℚ) : ℝ) + 1 = 0 := by
  have hv : 0 ≤ sampleVariance ss := sampleVariance_nonneg ss
  have hmR : ((mean ss : ℚ) : ℝ) ≠ 0 := by exact_mod_cast hm
  constructor
  · rintro ⟨hneg, hvar⟩
    have hnegR : ((mean ss : ℚ) : ℝ) < 0 := by exact_mod_cast hneg
    have : stdev ss = -((mean ss : ℚ) : ℝ) := by
      rw [stdev, hvar]
      push_cast
      rw [show ((mean ss : ℚ) : ℝ) ^ 2 = (-((mean ss : ℚ) : ℝ)) ^ 2 by ring]
      exact Real.sqrt_sq (by linarith)
    rw [this, neg_div, div_self hmR]
    ring
  · intro h0
    have hstdev : stdev ss = -((mean ss : ℚ) : ℝ) := by
      field_simp at h0
      linarith
    have hnn : 0 ≤ -((mean ss : ℚ) : ℝ) := hstdev ▸ stdev_nonneg ss
    have hnegR : ((mean ss : ℚ) : ℝ) < 0 :=
      lt_of_le_of_ne (by linarith) hmR
    refine ⟨by exact_mod_cast hnegR, ?_⟩
    have : ((sampleVariance ss : ℚ) : ℝ) = ((mean ss : ℚ) : ℝ) ^ 2 := by
      have := Real.sq_sqrt (show (0:ℝ) ≤ ((sampleVariance ss : ℚ) : ℝ) by exact_mod_cast hv)
      rw [← this, ← stdev, hstdev]
      ring
    exact_mod_cast this

lemma speed_stability_eq {ss : List ℚ}
    (hm : mean ss ≠ 0) (hg : ¬(mean ss < 0 ∧ sampleVariance ss = mean ss ^ 2)) :
    speed_stability ss = some (1 / (stdev ss / ((mean ss : ℚ) : ℝ) + 1)) := by
  rw [speed_stability, if_neg hm, if_neg hg]

lemma speed_stability_of_pos_mean {ss : List ℚ} (hm : 0 < mean ss) :
    speed_stability ss = some (1 / (stdev ss / ((mean ss : ℚ) : ℝ) + 1)) :=
  speed_stability_eq (ne_of_gt hm) (fun h => absurd hm (not_lt.mpr h.1.le))

lemma speed_stability_pos_le_one {ss : List ℚ} (hm : 0 < mean ss) :
    0 < 1 / (stdev ss / ((mean ss : ℚ) : ℝ) + 1) ∧
      1 / (stdev ss / ((mean ss : ℚ) : ℝ) + 1) ≤ 1 := by
  have hs := stdev_nonneg ss
  have hmR : (0:ℝ) < ((mean ss : ℚ) : ℝ) := by exact_mod_cast hm
  have hq : 0 ≤ stdev ss / ((mean ss : ℚ) : ℝ) := div_nonneg hs hmR.le
  constructor
  · positivity
  · rw [div_le_one (by linarith)]
    linarith

/-! ## `calculate_scores` branch lemmas -/

lemma calculate_scores_degenerate {ms : List Sample}
    (h : (validMeasurements ms).length < 2) :
    calculate_scores ms = some (0, 0, (⊤ : EReal)) := by
  rw [calculate_scores]
  simp only [if_pos h]

lemma calculate_scores_of_fault {ms : List Sample}
    (h2 : ¬(validMeasurements ms).length < 2)
    (hf : speed_stability ((validMeasurements ms).map Prod.snd) = none) :
    calculate_scores ms = none := by
  rw [calculate_scores]
  simp only [if_neg h2, hf]

lemma calculate_scores_of_mean_zero {ms : List Sample}
    (h2 : ¬(validMeasurements ms).length < 2)
    (hm : mean ((validMeasurements ms).map Prod.snd) = 0) :
    calculate_scores ms = none :=
  calculate_scores_of_fault h2 (by rw [speed_stability, if_pos hm])

lemma calculate_scores_eq {ms : List Sample}
    (h2 : ¬(validMeasurements ms).length < 2)
    (hm : mean ((validMeasurements ms).map Prod.snd) ≠ 0)
    (hg : ¬(mean ((validMeasurements ms).map Prod.snd) < 0 ∧
      sampleVariance ((validMeasurements ms).map Prod.snd) =
        mean ((validMeasurements ms).map Prod.snd) ^ 2)) :
    calculate_scores ms = some
      (specStability (validMeasurements ms),
        ((mean ((validMeasurements ms).map Prod.snd) : ℚ) : ℝ),
        (((mean ((validMeasurements ms).map Prod.fst) : ℚ) : ℝ) : EReal)) := by
  rw [calculate_scores]
  simp only [if_neg h2, speed_stability_eq hm hg, specStability, ping_stability]

/-! ## `scoreServer` lemmas -/

lemma coe_max_ereal (a b : ℝ) : ((max a b : ℝ) : EReal) = max (a : EReal) (b : EReal) :=
  EReal.coe_strictMono.monotone.map_max

lemma ereal_ofNat_1000 : (1000 : EReal) = ((1000 : ℝ) : EReal) := by norm_cast

lemma ereal_top_div_1000 : (⊤ : EReal) / 1000 = ⊤ :=
  EReal.top_div_of_pos_ne_top (by norm_num)
    (by rw [ereal_ofNat_1000]; exact EReal.coe_ne_top _)

/-- The `normalized_ping` term of `rank_nodes` commutes with the embedding
`ℝ → EReal` when `avg_ping` is finite. -/
lemma coe_pingterm (p : ℝ) :
    max (1 - (p : EReal) / 1000) 0 = ((max (1 - p / 1000) 0 : ℝ) : EReal) := by
  rw [coe_max_ereal, EReal.coe_sub, EReal.coe_div, ← ereal_ofNat_1000, EReal.coe_one,
    EReal.coe_zero]

/-- The weighted-score arithmetic of `rank_nodes` commutes with the
embedding `ℝ → EReal` when `avg_ping` is finite. -/
lemma weighted_coe (st sp p : ℝ) :
    (4 * ((st / 1 : ℝ) : EReal) + 3 * ((min (sp / 100) 1 : ℝ) : EReal) +
        1 * max (1 - (p : EReal) / 1000) 0) / 8 =
      ((specWeighted st sp p : ℝ) : EReal) := by
  rw [coe_pingterm, specWeighted, div_one, EReal.coe_div]
  norm_cast

lemma scoreServer_of_fault {server : String} {fms : ServerData}
    (h : calculate_scores (fms.map Prod.snd).flatten = none) :
    scoreServer server fms = none := by
  rw [scoreServer]
  simp only [h]

lemma scoreServer_degenerate {server : String} {fms : ServerData}
    (h : (validMeasurements (fms.map Prod.snd).flatten).length < 2) :
    scoreServer server fms = some ⟨server, 0, 0, 0, (⊤ : EReal)⟩ := by
  rw [scoreServer]
  simp only [calculate_scores_degenerate h]
  have hping : max (1 - (⊤ : EReal) / 1000) 0 = 0 := by
    rw [ereal_top_div_1000, EReal.sub_top]
    exact max_eq_right bot_le
  have h1 : ((0:ℝ) / 1 : ℝ) = 0 := by norm_num
  have h2 : (min ((0:ℝ) / 100) 1 : ℝ) = 0 := by norm_num
  rw [hping, h1, h2, EReal.coe_zero]
  simp

lemma scoreServer_eq_finite (server : String) {fms : ServerData} {st sp p : ℝ}
    (h : calculate_scores (fms.map Prod.snd).flatten = some (st, sp, ((p : ℝ) : EReal))) :
    scoreServer server fms =
      some ⟨server, ((specWeighted st sp p : ℝ) : EReal), st, sp, ((p : ℝ) : EReal)⟩ := by
  rw [scoreServer]
  simp only [h, weighted_coe]

/-! ## Bounds on the composite scores -/

lemma specStability_bounds {pairs : List (ℚ × ℚ)}
    (hm : 0 < mean (pairs.map Prod.snd)) :
    0 < specStability pairs ∧ specStability pairs ≤ 1 := by
  have hp1 := ping_stability_pos (pairs.map Prod.fst)
  have hp2 := ping_stability_le_one (pairs.map Prod.fst)
  have hs := speed_stability_pos_le_one hm
  rw [ping_stability] at hp1 hp2
  rw [specStability]
  constructor <;> [linarith [hs.1]; linarith [hs.2]]

lemma specWeighted_nonneg_le_one {st sp p : ℝ}
    (h0 : 0 ≤ st) (h1 : st ≤ 1) (hsp : 0 ≤ sp) (hp : 0 ≤ p) :
    0 ≤ specWeighted st sp p ∧ specWeighted st sp p ≤ 1 := by
  have hmin0 : 0 ≤ min (sp / 100) 1 := le_min (by positivity) zero_le_one
  have hmin1 : min (sp / 100) 1 ≤ 1 := min_le_right _ _
  have hmax0 : 0 ≤ max (1 - p / 1000) 0 := le_max_right _ _
  have hmax1 : max (1 - p / 1000) 0 ≤ 1 := by
    apply max_le _ zero_le_one
    have : 0 ≤ p / 1000 := by positivity
    linarith
  rw [specWeighted]
  constructor <;> [positivity; linarith]

lemma specWeighted_pos {st sp p : ℝ}
    (h0 : 0 < st) (hsp : 0 ≤ sp) (_hp : 0 ≤ p) :
    0 < specWeighted st sp p := by
  have hmin0 : 0 ≤ min (sp / 100) 1 := le_min (by positivity) zero_le_one
  have hmax0 : 0 ≤ max (1 - p / 1000) 0 := le_max_right _ _
  rw [specWeighted]
  positivity

/-! ## `rank_nodes` lemmas -/

lemma rankLE_total (a b : Ranking) : rankLE a b || rankLE b a := by
  rw [rankLE, rankLE]
  rcases le_total b.weighted a.weighted with h | h <;> simp [h]

lemma rankLE_trans (a b c : Ranking) : rankLE a b → rankLE b c → rankLE a c := by
  rw [rankLE, rankLE, rankLE]
  simp only [decide_eq_true_eq]
  intro h1 h2
  exact h2.trans h1

lemma rank_nodes_eq {data : Corpus} {rs : List Ranking}
    (h : collectRankings data = some rs) :
    rank_nodes data = some (rs.mergeSort rankLE) := by
  rw [rank_nodes, h]

lemma calculate_scores_of_cv_neg_one {ms : List Sample}
    (h2 : ¬(validMeasurements ms).length < 2)
    (hneg : mean ((validMeasurements ms).map Prod.snd) < 0)
    (hvar : sampleVariance ((validMeasurements ms).map Prod.snd) =
      mean ((validMeasurements ms).map Prod.snd) ^ 2) :
    calculate_scores ms = none :=
  calculate_scores_of_fault h2
    (by rw [speed_stability, if_neg (ne_of_lt hneg), if_pos ⟨hneg, hvar⟩])

lemma rank_nodes_some {data : Corpus} {out : List Ranking}
    (h : rank_nodes data = some out) :
    ∃ rs, collectRankings data = some rs ∧ out = rs.mergeSort rankLE := by
  rw [rank_nodes] at h
  rcases hc : collectRankings data with _ | rs
  · rw [hc] at h
    exact absurd h (by simp)
  · rw [hc] at h
    exact ⟨rs, rfl, (Option.some_injective _ h).symm⟩

lemma rankLE_total' (a b : Ranking) : rankLE a b || rankLE b a := rankLE_total a b

lemma mergeSort_rankLE_pairwise (rs : List Ranking) :
    (rs.mergeSort rankLE).Pairwise (fun a b : Ranking => b.weighted ≤ a.weighted) := by
  have hp := List.sorted_mergeSort rankLE_trans rankLE_total' rs
  exact hp.imp fun h => by simpa [rankLE, decide_eq_true_eq] using h

lemma rank_nodes_pairwise {data : Corpus} {out : List Ranking}
    (h : rank_nodes data = some out) :
    out.Pairwise (fun a b : Ranking => b.weighted ≤ a.weighted) := by
  obtain ⟨rs, -, rfl⟩ := rank_nodes_some h
  exact mergeSort_rankLE_pairwise rs

lemma mergeSort_rankLE_stable {rs : List Ranking} {a b : Ranking}
    (hsub : [a, b].Sublist rs) (hba : b.weighted ≤ a.weighted) :
    [a, b].Sublist (rs.mergeSort rankLE) := by
  apply List.sublist_mergeSort rankLE_trans rankLE_total'
  · exact List.pairwise_pair.mpr (by simp [rankLE, hba])
  · exact hsub

/-- Evaluation of `mergeSort` on a two-element list (the recursion is
well-founded, so this needs a proof rather than `rfl`). -/
lemma mergeSort_pair {α : Type} (le : α → α → Bool) (a b : α) :
    [a, b].mergeSort le = if le a b then [a, b] else [b, a] := by
  rw [List.mergeSort]
  rcases hab : le a b <;>
    simp [List.splitInTwo, List.splitAt, List.splitAt.go, List.merge, hab]

/-! ## Corpus membership -/

lemma updateAssoc_pred {α : Type} (Q : α → Prop) :
    ∀ {l : List (String × α)} {k : String} {d : α} {f : α → α},
      (∀ p ∈ l, Q p.2) → Q (f d) → (∀ v, Q v → Q (f v)) →
      ∀ p ∈ updateAssoc l k d f, Q p.2
  | [], _, _, _, _, hd, _, p, hp => by
    rw [updateAssoc] at hp
    simp only [List.mem_singleton] at hp
    simpa [hp]
  | (k', v) :: rest, k, d, f, hl, hd, hf, p, hp => by
    rw [updateAssoc] at hp
    by_cases hk : k = k'
    · rw [if_pos hk] at hp
      rcases List.mem_cons.mp hp with rfl | hmem
      · exact hf v (hl (k', v) (List.mem_cons_self _ _))
      · exact hl p (List.mem_cons_of_mem _ hmem)
    · rw [if_neg hk] at hp
      rcases List.mem_cons.mp hp with rfl | hmem
      · exact hl (k', v) (List.mem_cons_self _ _)
      · exact updateAssoc_pred Q (fun q hq => hl q (List.mem_cons_of_mem _ hq)) hd hf p hmem

lemma sampleIn_addSample {c : Corpus} {server fname : String} {s : Sample}
    {P : Sample → Prop}
    (hc : ∀ x, sampleIn c x → P x) (hs : P s) :
    ∀ x, sampleIn (addSample c server fname s) x → P x := by
  intro x hx
  obtain ⟨e, he, fe, hfe, hmem⟩ := hx
  rw [addSample] at he
  have step : ∀ e' ∈ updateAssoc c server []
      (fun sd => updateAssoc sd fname [] fun ms => ms ++ [s]),
      ∀ fe' ∈ e'.2, ∀ y ∈ fe'.2, P y := by
    refine updateAssoc_pred
      (fun (sd : ServerData) => ∀ fe' ∈ sd, ∀ y ∈ fe'.2, P y) ?_ ?_ ?_
    · intro p hp fe' hfe' y hy
      exact hc y ⟨p, hp, fe', hfe', hy⟩
    · intro fe' hfe' y hy
      rw [updateAssoc] at hfe'
      simp only [List.mem_singleton] at hfe'
      rw [hfe'] at hy
      simp only [List.nil_append, List.mem_singleton] at hy
      rwa [hy]
    · intro sd hsd
      refine updateAssoc_pred (fun (ms : List Sample) => ∀ y ∈ ms, P y) ?_ ?_ ?_
      · exact hsd
      · intro y hy
        simp only [List.nil_append, List.mem_singleton] at hy
        rwa [hy]
      · intro ms hms y hy
        rcases List.mem_append.mp hy with hy' | hy'
        · exact hms y hy'
        · simp only [List.mem_singleton] at hy'
          rwa [hy']
  exact step e he fe hfe x hmem

/-- Every sample a row contributes satisfies the ingestion well-formedness:
it is the error marker, or its components are `parse_value` results. -/
def WellFormedSample (x : Sample) : Prop :=
  x = Sample.error ∨
    ∃ a b p s, parse_value a = some p ∧ parse_value b = some s ∧ x = Sample.valid p s

lemma processRow_wellFormed {row : List String} {server : String} {s : Sample}
    (h : processRow row = some (server, s)) : WellFormedSample s := by
  match row with
  | [sv, ping, speed] =>
    rw [processRow] at h
    rcases hp : parse_value ping with _ | p <;> rcases hq : parse_value speed with _ | q <;>
      rw [hp, hq] at h <;> simp at h
    · exact Or.inl h.2.symm
    · exact Or.inr ⟨ping, speed, p, q, hp, hq, h.2.symm⟩
  | [] => simp [processRow] at h
  | [a] => simp [processRow] at h
  | [a, b] => simp [processRow] at h
  | a :: b :: c :: d :: rest => simp [processRow] at h

lemma sampleIn_ingestRow {c : Corpus} {fname : String} {row : List String}
    (hc : ∀ x, sampleIn c x → WellFormedSample x) :
    ∀ x, sampleIn (ingestRow fname c row) x → WellFormedSample x := by
  intro x hx
  rw [ingestRow] at hx
  rcases hrow : processRow row with _ | ⟨server, s⟩
  · rw [hrow] at hx
    exact hc x hx
  · rw [hrow] at hx
    exact sampleIn_addSample hc (processRow_wellFormed hrow) x hx

lemma sampleIn_foldRows {fname : String} :
    ∀ (rows : List (List String)) (c : Corpus),
      (∀ x, sampleIn c x → WellFormedSample x) →
      ∀ x, sampleIn (rows.foldl (ingestRow fname) c) x → WellFormedSample x
  | [], _, hc => hc
  | row :: rest, c, hc =>
    sampleIn_foldRows rest (ingestRow fname c row) (sampleIn_ingestRow hc)

lemma sampleIn_foldFiles :
    ∀ (files : List CsvFile) (c : Corpus),
      (∀ x, sampleIn c x → WellFormedSample x) →
      ∀ x, sampleIn (files.foldl
        (fun data f => (f.rows.drop 1).foldl (ingestRow f.name) data) c) x →
        WellFormedSample x
  | [], _, hc => hc
  | f :: rest, c, hc =>
    sampleIn_foldFiles rest _ (sampleIn_foldRows (f.rows.drop 1) c hc)

lemma read_csv_files_wellFormed (dir : List CsvFile) :
    ∀ x, sampleIn (read_csv_files dir).1 x → WellFormedSample x := by
  rw [read_csv_files]
  apply sampleIn_foldFiles
  intro x hx
  obtain ⟨e, he, -⟩ := hx
  simp at he

/-! ## Claim theorems -/

/-- **C2**, corrected: the row `["srv", "abc", "xyz"]` is recorded as an
error-marker sample although neither field is explicit-error (empty or a
casing of `"ERROR"`); the fields are merely unparseable.  This falsifies the
claim that a row becomes an error marker only when both fields are
explicit-error. -/
theorem C2_cex :
    processRow ["srv", "abc", "xyz"] = some ("srv", Sample.error) ∧
      ¬("abc" = "" ∨ isErrorWord "abc" = true) ∧
      ¬("xyz" = "" ∨ isErrorWord "xyz" = true) := by
  refine ⟨?_, by decide, by decide⟩
  simp +decide [processRow, parse_value, pyFloat, parseUnsigned, isErrorWord]

/-- **C2**, amended: a 3-field data row is recorded as a valid Sample exactly
when both measurement fields parse (`parse_value` returns a value), as an
error marker exactly when both fields fail to parse — whether explicit-error
or merely unparseable — and is dropped with no record exactly when one field
parses and the other does not. -/
theorem C2_row_classification (server ping speed : String) :
    (∀ p s : ℚ, processRow [server, ping, speed] = some (server, Sample.valid p s) ↔
      (parse_value ping = some p ∧ parse_value speed = some s)) ∧
    (processRow [server, ping, speed] = some (server, Sample.error) ↔
      (parse_value ping = none ∧ parse_value speed = none)) ∧
    (processRow [server, ping, speed] = none ↔
      ((parse_value ping = none ∧ parse_value speed ≠ none) ∨
        (parse_value ping ≠ none ∧ parse_value speed = none))) := by
  rcases hp : parse_value ping with _ | p₀ <;> rcases hq : parse_value speed with _ | q₀ <;>
    simp [processRow, hp, hq]

/-- **C3**, confirmed: with at least 2 valid pairs whose speeds are all 0, the
speed mean is 0 and `calculate_scores` hits the uncaught division by zero in
the coefficient-of-variation computation (modelled as `none`). -/
theorem C3_zero_speed_fault (ms : List Sample)
    (h2 : 2 ≤ (validMeasurements ms).length)
    (hz : ∀ pr ∈ validMeasurements ms, pr.2 = 0) :
    calculate_scores ms = none := by
  apply calculate_scores_of_mean_zero (by omega)
  have hconst : ∀ x ∈ (validMeasurements ms).map Prod.snd, x = 0 := by
    intro x hx
    obtain ⟨pr, hpr, rfl⟩ := List.mem_map.mp hx
    exact hz pr hpr
  have hne : (validMeasurements ms).map Prod.snd ≠ [] := by
    simp only [ne_eq, List.map_eq_nil_iff]
    intro hnil
    rw [hnil] at h2
    simp at h2
  exact mean_eq_of_const hconst hne

/-- Witness for C3 at the concrete input `[(1, 0), (2, 0)]`. -/
theorem C3_wit :
    2 ≤ (validMeasurements [Sample.valid 1 0, Sample.valid 2 0]).length ∧
      calculate_scores [Sample.valid 1 0, Sample.valid 2 0] = none := by
  constructor
  · simp [validMeasurements]
  · exact C3_zero_speed_fault _ (by simp [validMeasurements])
      (by simp [validMeasurements])

/-- **C4**, confirmed: fewer than 2 valid (non-error-marker) pairs — in
particular an all-error-marker list — give stability 0, average speed 0 and
average ping `+∞`. -/
theorem C4_degenerate (ms : List Sample)
    (h : (validMeasurements ms).length < 2) :
    calculate_scores ms = some (0, 0, (⊤ : EReal)) :=
  calculate_scores_degenerate h

/-- Witness for C4 at the all-error-marker input `[error]`. -/
theorem C4_wit :
    (validMeasurements [Sample.error]).length < 2 ∧
      calculate_scores [Sample.error] = some (0, 0, (⊤ : EReal)) :=
  ⟨by simp [validMeasurements], C4_degenerate _ (by simp [validMeasurements])⟩

/-- **C7**, confirmed: a 3-field row in which exactly one measurement field
parses is dropped: neither a valid sample nor an error marker is recorded. -/
theorem C7_mixed_dropped (server ping speed : String) (p : ℚ)
    (h : (parse_value ping = some p ∧ parse_value speed = none) ∨
      (parse_value ping = none ∧ parse_value speed = some p)) :
    processRow [server, ping, speed] = none := by
  rcases h with ⟨h1, h2⟩ | ⟨h1, h2⟩ <;> simp [processRow, h1, h2]

/-- Witness for C7 at the spec's own example row: ping `"12.5"`,
speed `"ERROR"`. -/
theorem C7_wit : processRow ["srv", "12.5", "ERROR"] = none :=
  C7_mixed_dropped "srv" "12.5" "ERROR" (25/2)
    (Or.inl ⟨by simp +decide [parse_value, pyFloat, parseUnsigned, digitsToNat,
      isErrorWord]; norm_num, by decide⟩)

/-- **C8**, confirmed: with at least 2 valid samples whose pings are all
identical, the ping standard deviation is 0 and the `ping_stability` term of
`calculate_scores` is exactly 1. -/
theorem C8_const_ping_stability (ms : List Sample) (c : ℚ)
    (_h2 : 2 ≤ (validMeasurements ms).length)
    (hc : ∀ p ∈ (validMeasurements ms).map Prod.fst, p = c) :
    ping_stability ((validMeasurements ms).map Prod.fst) = 1 :=
  ping_stability_eq_one_of_const hc

/-- Witness for C8 at the concrete input `[(5, 1), (5, 2)]`. -/
theorem C8_wit :
    ping_stability ((validMeasurements [Sample.valid 5 1, Sample.valid 5 2]).map
      Prod.fst) = 1 :=
  C8_const_ping_stability _ 5 (by simp [validMeasurements])
    (by simp [validMeasurements])

/-- **C1**, corrected: nonzero speed mean is not enough for
`calculate_scores` to return the spec's formulas.  At
`[(0, 0), (0, −2), (0, −4)]` there are 3 valid pairs and the speed mean is
−2 ≠ 0, yet the code faults (uncaught `ZeroDivisionError`), because the
outer denominator `stdev/mean + 1` is exactly 0 (`stdev = 2 = −mean`); so
nothing is returned at all. -/
theorem C1_cex :
    2 ≤ (validMeasurements [Sample.valid 0 0, Sample.valid 0 (-2),
        Sample.valid 0 (-4)]).length ∧
      mean ((validMeasurements [Sample.valid 0 0, Sample.valid 0 (-2),
        Sample.valid 0 (-4)]).map Prod.snd) ≠ 0 ∧
      calculate_scores [Sample.valid 0 0, Sample.valid 0 (-2),
        Sample.valid 0 (-4)] = none := by
  refine ⟨by simp [validMeasurements], ?_, ?_⟩
  · simp [validMeasurements, mean]
    norm_num
  · apply calculate_scores_of_cv_neg_one (by simp [validMeasurements])
    · simp [validMeasurements, mean]
      norm_num
    · simp [validMeasurements, sampleVariance, mean]
      norm_num

/-- **C1**, amended: for a server with at least 2 valid pairs, a nonzero
speed mean, **and** a speed coefficient of variation different from −1 (the
additional fault case exhibited by `C1_cex`, stated by the equivalent
decidable guard on mean and variance), `calculate_scores` returns the
arithmetic means and the stability score built from the Bessel-corrected
sample standard deviations via `ping_stability = 1/(σ_p+1)`,
`speed_stability = 1/(σ_s/μ_s+1)`, `stability = (their sum)/2`; and the
`rank_nodes` loop body computes the weighted score
`(4·stability + 3·min(μ_s/100, 1) + 1·max(1 − μ_p/1000, 0)) / 8`. -/
theorem C1_formulas (server : String) (fms : ServerData)
    (h2 : 2 ≤ (validMeasurements (fms.map Prod.snd).flatten).length)
    (hm : mean ((validMeasurements (fms.map Prod.snd).flatten).map Prod.snd) ≠ 0)
    (hg : ¬(mean ((validMeasurements (fms.map Prod.snd).flatten).map Prod.snd) < 0 ∧
      sampleVariance ((validMeasurements (fms.map Prod.snd).flatten).map Prod.snd) =
        mean ((validMeasurements (fms.map Prod.snd).flatten).map Prod.snd) ^ 2)) :
    calculate_scores (fms.map Prod.snd).flatten =
      some (specStability (validMeasurements (fms.map Prod.snd).flatten),
        ((mean ((validMeasurements (fms.map Prod.snd).flatten).map Prod.snd) : ℚ) : ℝ),
        (((mean ((validMeasurements (fms.map Prod.snd).flatten).map Prod.fst) : ℚ) : ℝ) :
          EReal)) ∧
    scoreServer server fms =
      some ⟨server,
        ((specWeighted (specStability (validMeasurements (fms.map Prod.snd).flatten))
          ((mean ((validMeasurements (fms.map Prod.snd).flatten).map Prod.snd) : ℚ) : ℝ)
          ((mean ((validMeasurements (fms.map Prod.snd).flatten).map Prod.fst) : ℚ) : ℝ) :
            ℝ) : EReal),
        specStability (validMeasurements (fms.map Prod.snd).flatten),
        ((mean ((validMeasurements (fms.map Prod.snd).flatten).map Prod.snd) : ℚ) : ℝ),
        (((mean ((validMeasurements (fms.map Prod.snd).flatten).map Prod.fst) : ℚ) : ℝ) :
          EReal)⟩ := by
  have h2' : ¬(validMeasurements (fms.map Prod.snd).flatten).length < 2 := by omega
  have h1 := calculate_scores_eq h2' hm hg
  exact ⟨h1, scoreServer_eq_finite server h1⟩

/-- Witness for C1 (amended) at the spec's example server:
`[(10, 50), (20, 60)]` in a single file. -/
theorem C1_wit :
    calculate_scores (([( "f1.csv",
        [Sample.valid 10 50, Sample.valid 20 60])] : ServerData).map Prod.snd).flatten =
      some (specStability (validMeasurements (([( "f1.csv",
          [Sample.valid 10 50, Sample.valid 20 60])] : ServerData).map Prod.snd).flatten),
        ((mean ((validMeasurements (([( "f1.csv",
          [Sample.valid 10 50, Sample.valid 20 60])] : ServerData).map
            Prod.snd).flatten).map Prod.snd) : ℚ) : ℝ),
        (((mean ((validMeasurements (([( "f1.csv",
          [Sample.valid 10 50, Sample.valid 20 60])] : ServerData).map
            Prod.snd).flatten).map Prod.fst) : ℚ) : ℝ) : EReal)) ∧
    scoreServer "A" [("f1.csv", [Sample.valid 10 50, Sample.valid 20 60])] =
      some ⟨"A",
        ((specWeighted (specStability (validMeasurements (([( "f1.csv",
            [Sample.valid 10 50, Sample.valid 20 60])] : ServerData).map
              Prod.snd).flatten))
          ((mean ((validMeasurements (([( "f1.csv",
            [Sample.valid 10 50, Sample.valid 20 60])] : ServerData).map
              Prod.snd).flatten).map Prod.snd) : ℚ) : ℝ)
          ((mean ((validMeasurements (([( "f1.csv",
            [Sample.valid 10 50, Sample.valid 20 60])] : ServerData).map
              Prod.snd).flatten).map Prod.fst) : ℚ) : ℝ) : ℝ) : EReal),
        specStability (validMeasurements (([( "f1.csv",
          [Sample.valid 10 50, Sample.valid 20 60])] : ServerData).map Prod.snd).flatten),
        ((mean ((validMeasurements (([( "f1.csv",
          [Sample.valid 10 50, Sample.valid 20 60])] : ServerData).map
            Prod.snd).flatten).map Prod.snd) : ℚ) : ℝ),
        (((mean ((validMeasurements (([( "f1.csv",
          [Sample.valid 10 50, Sample.valid 20 60])] : ServerData).map
            Prod.snd).flatten).map Prod.fst) : ℚ) : ℝ) : EReal)⟩ :=
  C1_formulas "A" [("f1.csv", [Sample.valid 10 50, Sample.valid 20 60])]
    (by simp [validMeasurements])
    (by simp [validMeasurements, mean]; norm_num)
    (by simp [validMeasurements, mean]; norm_num)

/-- **C5**, corrected: a server with 2 valid samples and nonzero speed mean
can still get a weighted score above 1 when sample values are negative: with
samples `[(−500, 200), (−500, 200)]` the weighted score is `17/16 > 1`.  The
claimed bound needs nonnegative sample values. -/
theorem C5_cex :
    scoreServer "s" [("f.csv", [Sample.valid (-500) 200, Sample.valid (-500) 200])] =
      some ⟨"s", (((17/16 : ℝ)) : EReal), 1, 200, (((-500 : ℝ)) : EReal)⟩ ∧
    ¬((((17/16 : ℝ)) : EReal) ≤ 1) ∧
    2 ≤ (validMeasurements (([("f.csv",
      [Sample.valid (-500) 200, Sample.valid (-500) 200])] : ServerData).map
        Prod.snd).flatten).length ∧
    mean ((validMeasurements (([("f.csv",
      [Sample.valid (-500) 200, Sample.valid (-500) 200])] : ServerData).map
        Prod.snd).flatten).map Prod.snd) ≠ 0 := by
  have h2' : ¬(validMeasurements (([("f.csv",
      [Sample.valid (-500) 200, Sample.valid (-500) 200])] : ServerData).map
        Prod.snd).flatten).length < 2 := by
    simp [validMeasurements]
  have hm : mean ((validMeasurements (([("f.csv",
      [Sample.valid (-500) 200, Sample.valid (-500) 200])] : ServerData).map
        Prod.snd).flatten).map Prod.snd) = 200 := by
    simp [validMeasurements, mean]
  have hg : ¬(mean ((validMeasurements (([("f.csv",
      [Sample.valid (-500) 200, Sample.valid (-500) 200])] : ServerData).map
        Prod.snd).flatten).map Prod.snd) < 0 ∧
      sampleVariance ((validMeasurements (([("f.csv",
        [Sample.valid (-500) 200, Sample.valid (-500) 200])] : ServerData).map
          Prod.snd).flatten).map Prod.snd) =
        mean ((validMeasurements (([("f.csv",
          [Sample.valid (-500) 200, Sample.valid (-500) 200])] : ServerData).map
            Prod.snd).flatten).map Prod.snd) ^ 2) := by
    rw [hm]
    rintro ⟨hneg, -⟩
    norm_num at hneg
  have h1 := calculate_scores_eq h2' (by rw [hm]; norm_num) hg
  have hst : specStability (validMeasurements (([("f.csv",
      [Sample.valid (-500) 200, Sample.valid (-500) 200])] : ServerData).map
        Prod.snd).flatten) = 1 := by
    rw [specStability]
    rw [stdev_eq_zero_of_const (c := (-500 : ℚ)) (by simp [validMeasurements])]
    rw [stdev_eq_zero_of_const (c := (200 : ℚ)) (by simp [validMeasurements])]
    rw [hm]
    norm_num
  rw [hst, hm] at h1
  have hp : ((mean ((validMeasurements (([("f.csv",
      [Sample.valid (-500) 200, Sample.valid (-500) 200])] : ServerData).map
        Prod.snd).flatten).map Prod.fst) : ℚ) : ℝ) = -500 := by
    simp [validMeasurements, mean]
  rw [hp] at h1
  have h2'' := scoreServer_eq_finite "s" h1
  have hw : specWeighted 1 ((200 : ℚ) : ℝ) (-500) = 17/16 := by
    rw [specWeighted]
    norm_num [min_def, max_def]
  rw [hw] at h2''
  refine ⟨?_, ?_, by omega, by rw [hm]; norm_num⟩
  · push_cast at h2'' ⊢
    exact h2''
  · rw [← EReal.coe_one, EReal.coe_le_coe_iff]
    norm_num

/-- **C5**, amended: for a server with at least 2 valid samples whose ping
and speed values are all nonnegative and whose speed mean is nonzero, the
weighted score lies in `[0, 1]`. -/
theorem C5_weighted_in_unit (server : String) (fms : ServerData)
    (h2 : 2 ≤ (validMeasurements (fms.map Prod.snd).flatten).length)
    (hnn : ∀ pr ∈ validMeasurements (fms.map Prod.snd).flatten, 0 ≤ pr.1 ∧ 0 ≤ pr.2)
    (hm : mean ((validMeasurements (fms.map Prod.snd).flatten).map Prod.snd) ≠ 0) :
    ∃ r, scoreServer server fms = some r ∧ 0 ≤ r.weighted ∧ r.weighted ≤ 1 := by
  have hsp0 : 0 ≤ mean ((validMeasurements (fms.map Prod.snd).flatten).map Prod.snd) := by
    apply mean_nonneg
    intro x hx
    obtain ⟨pr, hpr, rfl⟩ := List.mem_map.mp hx
    exact (hnn pr hpr).2
  have hspos : 0 < mean ((validMeasurements (fms.map Prod.snd).flatten).map Prod.snd) :=
    lt_of_le_of_ne hsp0 (Ne.symm hm)
  have hg : ¬(mean ((validMeasurements (fms.map Prod.snd).flatten).map Prod.snd) < 0 ∧
      sampleVariance ((validMeasurements (fms.map Prod.snd).flatten).map Prod.snd) =
        mean ((validMeasurements (fms.map Prod.snd).flatten).map Prod.snd) ^ 2) :=
    fun h => absurd hspos (not_lt.mpr h.1.le)
  have h2' : ¬(validMeasurements (fms.map Prod.snd).flatten).length < 2 := by omega
  have h1 := calculate_scores_eq h2' hm hg
  have hstb := specStability_bounds hspos
  have hpg0 : 0 ≤ mean ((validMeasurements (fms.map Prod.snd).flatten).map Prod.fst) := by
    apply mean_nonneg
    intro x hx
    obtain ⟨pr, hpr, rfl⟩ := List.mem_map.mp hx
    exact (hnn pr hpr).1
  have hsp0R : (0 : ℝ) ≤
      ((mean ((validMeasurements (fms.map Prod.snd).flatten).map Prod.snd) : ℚ) : ℝ) := by
    exact_mod_cast hsp0
  have hpg0R : (0 : ℝ) ≤
      ((mean ((validMeasurements (fms.map Prod.snd).flatten).map Prod.fst) : ℚ) : ℝ) := by
    exact_mod_cast hpg0
  have hw := specWeighted_nonneg_le_one hstb.1.le hstb.2 hsp0R hpg0R
  refine ⟨_, scoreServer_eq_finite server h1, ?_, ?_⟩
  · exact EReal.coe_nonneg.mpr hw.1
  · rw [← EReal.coe_one]
    exact EReal.coe_le_coe_iff.mpr hw.2

/-- Witness for C5 (amended) at the server `[(10, 50), (20, 60)]`. -/
theorem C5_wit :
    ∃ r, scoreServer "A" [("f1.csv", [Sample.valid 10 50, Sample.valid 20 60])] =
      some r ∧ 0 ≤ r.weighted ∧ r.weighted ≤ 1 :=
  C5_weighted_in_unit "A" [("f1.csv", [Sample.valid 10 50, Sample.valid 20 60])]
    (by simp [validMeasurements])
    (by simp [validMeasurements])
    (by simp [validMeasurements, mean]; norm_num)

/-- **C9**, corrected: ingestion enforces no sign constraint.  A directory
whose one file has the row `["s1", "-5", "10"]` stores the valid sample
`(−5, 10)` with a negative ping in the corpus, falsifying `ping ≥ 0`. -/
theorem C9_cex :
    (read_csv_files [⟨"a.csv", [["server", "ping", "speed"], ["s1", "-5", "10"]]⟩]).1 =
      [("s1", [("a.csv", [Sample.valid (-5) 10])])] ∧ ((-5 : ℚ) < 0) := by
  constructor
  · simp +decide [read_csv_files, ingestRow, processRow, addSample, updateAssoc]
  · norm_num

/-- **C9**, amended: every sample stored in the corpus by ingestion is the
error marker or a valid pair whose two components are `parse_value` results
of the row's fields (finite parsed floats, of either sign); no
nonnegativity is guaranteed. -/
theorem C9_samples_wellFormed (dir : List CsvFile) (x : Sample)
    (hx : sampleIn (read_csv_files dir).1 x) :
    x = Sample.error ∨
      ∃ a b p s, parse_value a = some p ∧ parse_value b = some s ∧
        x = Sample.valid p s :=
  read_csv_files_wellFormed dir x hx

/-- Witness for C9 (amended) at the one-file directory from `C9_cex`. -/
theorem C9_wit :
    Sample.valid (-5) 10 = Sample.error ∨
      ∃ a b p s, parse_value a = some p ∧ parse_value b = some s ∧
        Sample.valid (-5 : ℚ) (10 : ℚ) = Sample.valid p s :=
  C9_samples_wellFormed [⟨"a.csv", [["server", "ping", "speed"], ["s1", "-5", "10"]]⟩]
    (Sample.valid (-5) 10)
    (by
      have hcorp : (read_csv_files [⟨"a.csv",
          [["server", "ping", "speed"], ["s1", "-5", "10"]]⟩]).1 =
          [("s1", [("a.csv", [Sample.valid (-5) 10])])] := by
        simp +decide [read_csv_files, ingestRow, processRow, addSample, updateAssoc]
      rw [hcorp]
      exact ⟨_, List.mem_singleton.mpr rfl, _, List.mem_singleton.mpr rfl,
        List.mem_singleton.mpr rfl⟩)

/-- **C6**, confirmed: when the per-server scoring loop succeeds with the
rankings list `rs` (in corpus insertion order), `rank_nodes` returns a
permutation of `rs` that is sorted in descending order of weighted score,
and any two entries already ordered by weighted score — in particular any
two with equal score — keep their relative (insertion) order: the sort is
stable, hence deterministic on identical input.  (`rank_nodes` is a pure
function, so the output is the same on every run.) -/
theorem C6_sorted_stable (data : Corpus) (rs : List Ranking)
    (h : collectRankings data = some rs) :
    ∃ out, rank_nodes data = some out ∧ out.Perm rs ∧
      out.Pairwise (fun a b : Ranking => b.weighted ≤ a.weighted) ∧
      ∀ a b : Ranking, [a, b].Sublist rs → b.weighted ≤ a.weighted →
        [a, b].Sublist out :=
  ⟨rs.mergeSort rankLE, rank_nodes_eq h, List.mergeSort_perm rs rankLE,
    mergeSort_rankLE_pairwise rs, fun _ _ hsub hba => mergeSort_rankLE_stable hsub hba⟩

/-- Witness for C6 at the empty corpus. -/
theorem C6_wit :
    ∃ out, rank_nodes [] = some out ∧ out.Perm [] ∧
      out.Pairwise (fun a b : Ranking => b.weighted ≤ a.weighted) ∧
      ∀ a b : Ranking, [a, b].Sublist [] → b.weighted ≤ a.weighted →
        [a, b].Sublist out :=
  C6_sorted_stable [] [] rfl

/-- **C10**, confirmed: (i) a server with fewer than 2 valid samples gets the
ranking record `(0, 0, 0, +∞)` — in particular weighted score exactly 0,
since `min(0/100, 1) = 0` and `max(1 − ∞/1000, 0) = 0`; (ii) a server with
at least 2 valid nonnegative samples and nonzero speed mean gets a strictly
positive weighted score; (iii) in any `rank_nodes` output, every entry with
positive weighted score comes strictly before every entry with weighted
score 0, so degenerate servers sort after all such servers. -/
theorem C10_degenerate_last :
    (∀ server fms, (validMeasurements (fms.map Prod.snd).flatten).length < 2 →
      scoreServer server fms = some ⟨server, 0, 0, 0, (⊤ : EReal)⟩) ∧
    (∀ server fms, 2 ≤ (validMeasurements (fms.map Prod.snd).flatten).length →
      (∀ pr ∈ validMeasurements (fms.map Prod.snd).flatten, 0 ≤ pr.1 ∧ 0 ≤ pr.2) →
      mean ((validMeasurements (fms.map Prod.snd).flatten).map Prod.snd) ≠ 0 →
      ∃ r, scoreServer server fms = some r ∧ 0 < r.weighted) ∧
    (∀ data out, rank_nodes data = some out →
      ∀ i j : ℕ, ∀ hi : i < out.length, ∀ hj : j < out.length,
        0 < (out.get ⟨i, hi⟩).weighted → (out.get ⟨j, hj⟩).weighted = 0 → i < j) := by
  refine ⟨?_, ?_, ?_⟩
  · intro server fms h
    exact scoreServer_degenerate h
  · intro server fms h2 hnn hm
    have hsp0 : 0 ≤ mean ((validMeasurements (fms.map Prod.snd).flatten).map Prod.snd) := by
      apply mean_nonneg
      intro x hx
      obtain ⟨pr, hpr, rfl⟩ := List.mem_map.mp hx
      exact (hnn pr hpr).2
    have hspos : 0 < mean ((validMeasurements (fms.map Prod.snd).flatten).map Prod.snd) :=
      lt_of_le_of_ne hsp0 (Ne.symm hm)
    have hg : ¬(mean ((validMeasurements (fms.map Prod.snd).flatten).map Prod.snd) < 0 ∧
        sampleVariance ((validMeasurements (fms.map Prod.snd).flatten).map Prod.snd) =
          mean ((validMeasurements (fms.map Prod.snd).flatten).map Prod.snd) ^ 2) :=
      fun hh => absurd hspos (not_lt.mpr hh.1.le)
    have h2' : ¬(validMeasurements (fms.map Prod.snd).flatten).length < 2 := by omega
    have h1 := calculate_scores_eq h2' hm hg
    have hstb := specStability_bounds hspos
    have hpg0 : 0 ≤ mean ((validMeasurements (fms.map Prod.snd).flatten).map Prod.fst) := by
      apply mean_nonneg
      intro x hx
      obtain ⟨pr, hpr, rfl⟩ := List.mem_map.mp hx
      exact (hnn pr hpr).1
    have hsp0R : (0 : ℝ) ≤
        ((mean ((validMeasurements (fms.map Prod.snd).flatten).map Prod.snd) : ℚ) : ℝ) := by
      exact_mod_cast hsp0
    have hpg0R : (0 : ℝ) ≤
        ((mean ((validMeasurements (fms.map Prod.snd).flatten).map Prod.fst) : ℚ) : ℝ) := by
      exact_mod_cast hpg0
    refine ⟨_, scoreServer_eq_finite server h1, ?_⟩
    exact EReal.coe_pos.mpr (specWeighted_pos hstb.1 hsp0R hpg0R)
  · intro data out h i j hi hj hpos hzero
    have hpw := rank_nodes_pairwise h
    rw [List.pairwise_iff_get] at hpw
    by_contra hij
    push_neg at hij
    rcases eq_or_lt_of_le hij with heq | hlt
    · subst heq
      rw [hzero] at hpos
      exact lt_irrefl _ hpos
    · have hrel := hpw ⟨j, hj⟩ ⟨i, hi⟩ (Fin.mk_lt_mk.mpr hlt)
      rw [hzero] at hrel
      exact absurd (lt_of_lt_of_le hpos hrel) (lt_irrefl _)

/-- Witness for C10: a two-server corpus where server `"b"` has 2 valid
nonnegative samples (positive weighted score) and server `"a"` has none
(weighted score 0); `"b"` is ranked strictly before `"a"`. -/
theorem C10_wit :
    scoreServer "a" [] = some ⟨"a", 0, 0, 0, (⊤ : EReal)⟩ ∧
    (∃ r, scoreServer "b" [("f1.csv", [Sample.valid 10 50, Sample.valid 20 60])] =
      some r ∧ 0 < r.weighted) ∧
    (0 : ℕ) < 1 := by
  have hA : scoreServer "a" [] = some ⟨"a", 0, 0, 0, (⊤ : EReal)⟩ :=
    C10_degenerate_last.1 "a" [] (by simp [validMeasurements])
  obtain ⟨rB, hrB, hposB⟩ :=
    C10_degenerate_last.2.1 "b" [("f1.csv", [Sample.valid 10 50, Sample.valid 20 60])]
      (by simp [validMeasurements]) (by simp [validMeasurements])
      (by simp [validMeasurements, mean]; norm_num)
  refine ⟨hA, ⟨rB, hrB, hposB⟩, ?_⟩
  have hcollect : collectRankings [("b",
      [("f1.csv", [Sample.valid 10 50, Sample.valid 20 60])]), ("a", [])] =
      some [rB, ⟨"a", 0, 0, 0, (⊤ : EReal)⟩] := by
    simp [collectRankings, hrB, hA]
  have hle : rankLE rB ⟨"a", 0, 0, 0, (⊤ : EReal)⟩ = true := by
    rw [rankLE]
    exact decide_eq_true hposB.le
  have hms : [rB, ⟨"a", 0, 0, 0, (⊤ : EReal)⟩].mergeSort rankLE =
      [rB, ⟨"a", 0, 0, 0, (⊤ : EReal)⟩] := by
    rw [mergeSort_pair, hle]
    simp
  have hrank : rank_nodes [("b",
      [("f1.csv", [Sample.valid 10 50, Sample.valid 20 60])]), ("a", [])] =
      some [rB, ⟨"a", 0, 0, 0, (⊤ : EReal)⟩] := by
    rw [rank_nodes_eq hcollect, hms]
  exact C10_degenerate_last.2.2 _ _ hrank 0 1 (by simp) (by simp)
    (by simpa using hposB) (by simp)

end VPN
